import Mathlib

/-!
Shallow embedding of the BLE tag firmware `src/IAM_PCB_TAG.ino`: the
connectivity state machine (`changeState`, the server connection
callbacks, and the delivery branches of `handleNormalMode` and
`handleLostMode`) and the packet codec (`formatPacket`,
`parseReceivedPacket`).

Modelling conventions: C `float` values are modelled as rationals;
Arduino `String` values are Lean strings / character lists; the
five-element scratch array `String parts[5]` of `parseReceivedPacket`
is a five-element list whose out-of-range write (the final-segment
write at `parts[commaCount]`) is modelled as a checked no-op
(`List.set` drops an out-of-range index) and is tracked separately by
the split state, since in C that write is undefined behaviour.
-/

namespace IAMTag

/-- The firmware's `enum DeviceState`. -/
inductive DeviceState
  | STATE_PAIR
  | STATE_NORMAL
  | STATE_LOST
  deriving DecidableEq, Repr

/-- The globals touched by the state machine: `currentState`,
`consecutiveFailures`, `deviceConnected` and `ledFlashRate`. -/
structure TagState where
  currentState : DeviceState
  consecutiveFailures : Int
  deviceConnected : Bool
  ledFlashRate : Nat
  deriving DecidableEq, Repr

/-- `const int maxFailures = 5`. -/
def maxFailures : Int := 5

/-- The per-state LED flash rates assigned inside `changeState`. -/
def flashRateFor : DeviceState → Nat
  | .STATE_PAIR => 200
  | .STATE_NORMAL => 500
  | .STATE_LOST => 100

/-- `changeState(newState)`: a no-op when the state is unchanged,
otherwise updates `currentState` and `ledFlashRate`. -/
def changeState (s : TagState) (newState : DeviceState) : TagState :=
  if s.currentState ≠ newState then
    { s with currentState := newState, ledFlashRate := flashRateFor newState }
  else s

/-- `MyServerCallbacks::onConnect`: sets `deviceConnected`, moves
PAIR to NORMAL, and resets `consecutiveFailures`. -/
def onConnect (s : TagState) : TagState :=
  let s1 := { s with deviceConnected := true }
  let s2 := if s1.currentState = .STATE_PAIR then changeState s1 .STATE_NORMAL else s1
  { s2 with consecutiveFailures := 0 }

/-- `MyServerCallbacks::onDisconnect`: clears `deviceConnected` and
moves NORMAL back to PAIR (only NORMAL is checked). -/
def onDisconnect (s : TagState) : TagState :=
  let s1 := { s with deviceConnected := false }
  if s1.currentState = .STATE_NORMAL then changeState s1 .STATE_PAIR else s1

/-- The delivery-outcome branch of `handleNormalMode` (the body guarded
by `deviceConnected` and the packet interval, with the send outcome
abstracted as `success`). -/
def handleNormalDelivery (s : TagState) (success : Bool) : TagState :=
  if success then { s with consecutiveFailures := 0 }
  else
    let s1 := { s with consecutiveFailures := s.consecutiveFailures + 1 }
    if maxFailures ≤ s1.consecutiveFailures then changeState s1 .STATE_LOST else s1

/-- The delivery-outcome branch of `handleLostMode`. -/
def handleLostDelivery (s : TagState) (success : Bool) : TagState :=
  if success then changeState { s with consecutiveFailures := 0 } .STATE_NORMAL
  else s

/-- The `switch (currentState)` dispatch of `loop()`, restricted to a
delivery attempt with outcome `success` (PAIR mode attempts nothing). -/
def deliveryStep (s : TagState) (success : Bool) : TagState :=
  match s.currentState with
  | .STATE_PAIR => s
  | .STATE_NORMAL => handleNormalDelivery s success
  | .STATE_LOST => handleLostDelivery s success

/-- NORMAL mode with a zero failure count, connected. -/
def normalStart : TagState :=
  { currentState := .STATE_NORMAL, consecutiveFailures := 0,
    deviceConnected := true, ledFlashRate := flashRateFor .STATE_NORMAL }

/-- A run of `k` consecutive failed delivery attempts from `normalStart`. -/
def failRun : Nat → TagState
  | 0 => normalStart
  | k + 1 => deliveryStep (failRun k) false

/-- The state reached in LOST mode after the threshold crossing. -/
def lostAt5 : TagState :=
  { currentState := .STATE_LOST, consecutiveFailures := 5,
    deviceConnected := true, ledFlashRate := flashRateFor .STATE_LOST }

theorem failRun_closed (k : Nat) :
    failRun k =
      if k < 5 then { normalStart with consecutiveFailures := (k : Int) }
      else lostAt5 := by
  induction k with
  | zero => simp [failRun, normalStart]
  | succ k ih =>
    rw [failRun, ih]
    by_cases h4 : k + 1 < 5
    · have hk : k < 5 := by omega
      simp only [if_pos hk, if_pos h4]
      have hlt : ¬ maxFailures ≤ (k : Int) + 1 := by
        simp only [maxFailures]
        omega
      simp [deliveryStep, normalStart, handleNormalDelivery, hlt]
    · by_cases hk : k < 5
      · have hk4 : k = 4 := by omega
        subst hk4
        simp only [if_pos hk, if_neg h4]
        decide
      · simp only [if_neg hk, if_neg h4]
        simp [deliveryStep, lostAt5, handleLostDelivery]

/-- C3: starting from NORMAL with failure count 0, a run of consecutive
failed deliveries reaches LOST exactly on the fifth failure (count `k`
and mode NORMAL for `k < 5`, LOST with count 5 at `k = 5`), and the
failure count never strictly exceeds the threshold while still NORMAL. -/
theorem normal_five_failures_to_lost (k : Nat) :
    (k < 5 → (failRun k).currentState = .STATE_NORMAL ∧
      (failRun k).consecutiveFailures = (k : Int)) ∧
    ((failRun 5).currentState = .STATE_LOST ∧
      (failRun 5).consecutiveFailures = 5) ∧
    ((failRun k).currentState = .STATE_NORMAL →
      (failRun k).consecutiveFailures < maxFailures) := by
  refine ⟨?_, ?_, ?_⟩
  · intro hk
    rw [failRun_closed, if_pos hk]
    exact ⟨rfl, rfl⟩
  · rw [failRun_closed]
    exact ⟨rfl, rfl⟩
  · intro hnorm
    rw [failRun_closed] at hnorm ⊢
    by_cases hk : k < 5
    · rw [if_pos hk] at hnorm ⊢
      simp only [normalStart, maxFailures]
      omega
    · rw [if_neg hk] at hnorm
      exact absurd hnorm (by simp [lostAt5])

/-- Witness for C3 at the concrete run length 4 (still NORMAL, count 4)
together with the hypothesis-free LOST facts at step 5. -/
theorem normal_five_failures_to_lost_witness :
    ((failRun 4).currentState = .STATE_NORMAL ∧
      (failRun 4).consecutiveFailures = (4 : Nat)) ∧
    ((failRun 5).currentState = .STATE_LOST ∧
      (failRun 5).consecutiveFailures = 5) :=
  ⟨(normal_five_failures_to_lost 4).1 (by decide),
   (normal_five_failures_to_lost 4).2.1⟩

/-- Counterexample to C2: in LOST mode a client disconnect does not
move the machine to PAIR mode — the state stays LOST. -/
theorem disconnect_in_lost_stays_lost_counterexample :
    (onDisconnect lostAt5).currentState = .STATE_LOST ∧
    DeviceState.STATE_LOST ≠ DeviceState.STATE_PAIR := by
  constructor
  · rfl
  · decide

/-- C2 amended: a client disconnect moves NORMAL to PAIR, but a
disconnect received in LOST mode leaves the mode LOST (`onDisconnect`
checks only for NORMAL). -/
theorem disconnect_only_normal_to_pair (s : TagState) :
    (s.currentState = .STATE_NORMAL →
      (onDisconnect s).currentState = .STATE_PAIR) ∧
    (s.currentState = .STATE_LOST →
      (onDisconnect s).currentState = .STATE_LOST) := by
  constructor
  · intro h
    simp [onDisconnect, changeState, h]
  · intro h
    simp [onDisconnect, h]

/-- Witness for the amended C2 at concrete NORMAL and LOST states. -/
theorem disconnect_only_normal_to_pair_witness :
    (onDisconnect normalStart).currentState = .STATE_PAIR ∧
    (onDisconnect lostAt5).currentState = .STATE_LOST :=
  ⟨(disconnect_only_normal_to_pair normalStart).1 rfl,
   (disconnect_only_normal_to_pair lostAt5).2 rfl⟩

/-- C6: in LOST mode a single successful delivery attempt moves the
machine to NORMAL in the same step and resets the failure count to 0. -/
theorem lost_success_returns_normal (s : TagState)
    (h : s.currentState = .STATE_LOST) :
    (deliveryStep s true).currentState = .STATE_NORMAL ∧
    (deliveryStep s true).consecutiveFailures = 0 := by
  simp [deliveryStep, h, handleLostDelivery, changeState]

/-- Witness for C6 at the concrete LOST state. -/
theorem lost_success_returns_normal_witness :
    (deliveryStep lostAt5 true).currentState = .STATE_NORMAL ∧
    (deliveryStep lostAt5 true).consecutiveFailures = 0 :=
  lost_success_returns_normal lostAt5 rfl

/-- C7: from PAIR mode, a client connect moves to NORMAL and resets
the failure count to 0; a later disconnect from NORMAL returns to PAIR
whatever the failure count is at that moment. -/
theorem pair_connect_then_disconnect (s : TagState)
    (h : s.currentState = .STATE_PAIR) :
    (onConnect s).currentState = .STATE_NORMAL ∧
    (onConnect s).consecutiveFailures = 0 ∧
    (∀ f : Int,
      (onDisconnect { onConnect s with consecutiveFailures := f }).currentState
        = .STATE_PAIR) := by
  refine ⟨?_, ?_, ?_⟩
  · simp [onConnect, changeState, h]
  · simp [onConnect]
  · intro f
    simp [onConnect, onDisconnect, changeState, h]

/-- The boot state: PAIR mode, counter 0, not connected. -/
def pairBoot : TagState :=
  { currentState := .STATE_PAIR, consecutiveFailures := 0,
    deviceConnected := false, ledFlashRate := flashRateFor .STATE_PAIR }

/-- Witness for C7 at the concrete boot state (PAIR, counter 0). -/
theorem pair_connect_then_disconnect_witness :
    (onConnect pairBoot).currentState = .STATE_NORMAL ∧
    (onDisconnect { onConnect pairBoot with consecutiveFailures := 3 }).currentState
      = .STATE_PAIR :=
  ⟨(pair_connect_then_disconnect pairBoot rfl).1,
   (pair_connect_then_disconnect pairBoot rfl).2.2 3⟩

/-! ## Packet codec -/

/-- Numeric value of an ASCII digit character (`c - '0'`). -/
def digitVal (c : Char) : Nat := c.toNat - 48

/-- Value of a digit string read most-significant first. -/
def digitsVal (cs : List Char) : Nat :=
  cs.foldl (fun a c => a * 10 + digitVal c) 0

/-- The unsigned part of C `atof` (no exponent forms, which neither the
firmware nor its packets ever produce): a digit prefix, then optionally
a point and a further digit prefix; anything after the accepted prefix
is ignored, and no digits at all yield 0. -/
def parseUnsigned (cs : List Char) : ℚ :=
  let ip := cs.takeWhile Char.isDigit
  let rest := cs.dropWhile Char.isDigit
  if rest.head? = some '.' then
    let fp := rest.tail.takeWhile Char.isDigit
    (digitsVal ip : ℚ) + (digitsVal fp : ℚ) / 10 ^ fp.length
  else (digitsVal ip : ℚ)

/-- Arduino `String::toFloat` (which calls `atof`): an optional sign
followed by the unsigned form; on no parsable prefix it returns 0. -/
def toFloat (s : String) : ℚ :=
  match s.data with
  | [] => 0
  | c :: cs =>
      if c = '-' then -(parseUnsigned cs)
      else if c = '+' then parseUnsigned cs
      else parseUnsigned (c :: cs)

theorem toFloat_mk_cons (c : Char) (cs : List Char) :
    toFloat (String.mk (c :: cs)) =
      if c = '-' then -(parseUnsigned cs)
      else if c = '+' then parseUnsigned cs
      else parseUnsigned (c :: cs) := rfl

/-- C `isspace`, as used by Arduino `String::trim`. -/
def isWs (c : Char) : Bool :=
  c = ' ' || c = '\t' || c = '\n' || c = '\x0b' || c = '\x0c' || c = '\r'

/-- Arduino `String::trim`: drop leading and trailing whitespace. -/
def trimChars (cs : List Char) : List Char :=
  ((cs.dropWhile isWs).reverse.dropWhile isWs).reverse

/-- The loop state of `parseReceivedPacket`'s splitting pass:
`commaCount`, the characters since `lastIndex` (what
`substring(lastIndex, i)` would yield), and the `String parts[5]`
scratch array. -/
structure SplitState where
  commaCount : Nat
  cur : List Char
  parts : List String
  deriving DecidableEq, Repr

/-- One iteration of the splitting loop: on a comma, store the trimmed
segment at `parts[commaCount]` when `commaCount < 5`, then advance;
otherwise accumulate the character. -/
def splitStep (st : SplitState) (c : Char) : SplitState :=
  if c = ',' then
    { commaCount := st.commaCount + 1,
      cur := [],
      parts :=
        if st.commaCount < 5 then
          st.parts.set st.commaCount (String.mk (trimChars st.cur))
        else st.parts }
  else { st with cur := st.cur ++ [c] }

/-- The loop's starting state: five default-constructed strings. -/
def initSplit : SplitState := ⟨0, [], List.replicate 5 ""⟩

/-- The splitting loop over the whole packet. -/
def runSplit (packet : String) : SplitState :=
  packet.data.foldl splitStep initSplit

/-- The final-segment write after the loop:
`if (commaCount >= 4 && lastIndex < packet.length())` store the trimmed
tail at `parts[commaCount]`.  `lastIndex < length` holds exactly when
characters remain after the last comma (`cur ≠ []`).  When
`commaCount ≥ 5` the C write is out of bounds; here `List.set` drops
it. -/
def finalState (packet : String) : SplitState :=
  let st := runSplit packet
  if 4 ≤ st.commaCount ∧ st.cur ≠ [] then
    { st with parts := st.parts.set st.commaCount (String.mk (trimChars st.cur)) }
  else st

/-- Read `parts[i]` (in-bounds reads only ever use indices 0–4). -/
def getPart (st : SplitState) (i : Nat) : String := st.parts.getD i ""

/-- The decode-error taxonomy named by the specification. -/
inductive DecodeError
  | insufficientFields
  | invalidNumber
  deriving DecidableEq, Repr

/-- The global `ReceivedData receivedData`. -/
structure ReceivedData where
  timestamp : String
  latitude : ℚ
  longitude : ℚ
  altitude : ℚ
  rssi : Int
  hasReceivedData : Bool
  deriving DecidableEq, Repr

/-- Initial value of the global: `{"", 0.0, 0.0, 0.0, 0, false}`. -/
def receivedData0 : ReceivedData :=
  { timestamp := "", latitude := 0, longitude := 0, altitude := 0,
    rssi := 0, hasReceivedData := false }

/-- The record written by `parseReceivedPacket` when `commaCount >= 4`,
or the error taken otherwise.  The body's `toFloat` calls cannot throw,
so the `catch` branch of the source is dead and `invalidNumber` is
never produced. -/
def parseResult (packet : String) : Except DecodeError ReceivedData :=
  let st := finalState packet
  if 4 ≤ st.commaCount then
    .ok { timestamp := getPart st 0 ++ ", " ++ getPart st 1,
          latitude := toFloat (getPart st 2),
          longitude := toFloat (getPart st 3),
          altitude := toFloat (getPart st 4),
          rssi := 0,
          hasReceivedData := true }
  else .error .insufficientFields

/-- `parseReceivedPacket` as a transformer of the `receivedData`
global: overwritten wholesale on success, untouched on failure. -/
def parseReceivedPacket (packet : String) (rd : ReceivedData) : ReceivedData :=
  match parseResult packet with
  | .ok r => r
  | .error _ => rd

/-! ## Facts about the splitting loop -/

theorem foldl_splitStep_commaCount (cs : List Char) :
    ∀ st : SplitState,
      (List.foldl splitStep st cs).commaCount = st.commaCount + cs.count ',' := by
  induction cs with
  | nil => intro st; simp
  | cons c cs ih =>
      intro st
      rw [List.foldl_cons, ih]
      by_cases hc : c = ','
      · subst hc
        simp [splitStep, List.count_cons]
        omega
      · have hb : (c == ',') = false := by simp [hc]
        simp [splitStep, hc, List.count_cons, hb]

theorem runSplit_commaCount (p : String) :
    (runSplit p).commaCount = p.data.count ',' := by
  rw [runSplit, foldl_splitStep_commaCount]
  simp [initSplit]

theorem finalState_commaCount (p : String) :
    (finalState p).commaCount = (runSplit p).commaCount := by
  rw [finalState]
  split <;> rfl

theorem foldl_splitStep_parts_stable (cs : List Char) :
    ∀ (st : SplitState) (j : Nat),
      (List.foldl splitStep st cs).commaCount ≤ j →
      (List.foldl splitStep st cs).parts.getD j "" = st.parts.getD j "" := by
  induction cs with
  | nil => intro st j _; rfl
  | cons c cs ih =>
      intro st j h
      rw [List.foldl_cons] at h ⊢
      rw [ih _ _ h]
      have hcc : (splitStep st c).commaCount ≤ j := by
        rw [foldl_splitStep_commaCount] at h
        omega
      by_cases hc : c = ','
      · subst hc
        have hne : st.commaCount ≠ j := by
          simp [splitStep] at hcc
          omega
        simp only [splitStep, if_pos rfl]
        by_cases hw : st.commaCount < 5
        · simp [hw, List.getD_eq_getElem?_getD, List.getElem?_set_ne hne]
        · simp [hw]
      · simp [splitStep, hc]

/-! ## C4: fewer than four commas -/

/-- C4: an input with fewer than 4 commas fails with
`InsufficientFields`, and `receivedData` (every field, including the
presence flag) is left unchanged. -/
theorem insufficient_fields_rejected (p : String) (rd : ReceivedData)
    (h : p.data.count ',' < 4) :
    parseResult p = .error .insufficientFields ∧
    parseReceivedPacket p rd = rd := by
  have hcc : ¬ 4 ≤ (finalState p).commaCount := by
    rw [finalState_commaCount, runSplit_commaCount]
    omega
  have hres : parseResult p = .error .insufficientFields := by
    rw [parseResult, if_neg hcc]
  exact ⟨hres, by rw [parseReceivedPacket, hres]⟩

/-- Witness for C4 at a concrete two-comma input. -/
theorem insufficient_fields_rejected_witness :
    parseResult "12/28/2025, 14:30:45, 40.7" = .error .insufficientFields ∧
    parseReceivedPacket "12/28/2025, 14:30:45, 40.7" receivedData0
      = receivedData0 :=
  insufficient_fields_rejected "12/28/2025, 14:30:45, 40.7" receivedData0
    (by decide)

/-! ## C5: the signal-strength sentinel -/

/-- C5: every successfully decoded record stores the sentinel 0 in its
signal-strength field, so two successful decodes — whatever their
inputs, including inputs differing only in an appended signal-strength
field, and whatever local measurement is concurrently tracked — store
the same signal strength. -/
theorem decoded_rssi_is_sentinel :
    (∀ p r, parseResult p = .ok r → r.rssi = 0) ∧
    (∀ p q rp rq, parseResult p = .ok rp → parseResult q = .ok rq →
      rp.rssi = rq.rssi) := by
  have base : ∀ p r, parseResult p = .ok r → r.rssi = 0 := by
    intro p r h
    rw [parseResult] at h
    split at h
    · cases h
      rfl
    · cases h
  exact ⟨base, fun p q rp rq hp hq => by rw [base p rp hp, base q rq hq]⟩

/-- Witness for C5: the spec's example packet, and the same packet with
an appended signal-strength field, both store signal strength 0. -/
theorem decoded_rssi_is_sentinel_witness :
    (parseReceivedPacket "12/28/2025, 14:30:45, 40.712800, -74.006000, 10.00"
      receivedData0).rssi = 0 ∧
    (parseReceivedPacket "12/28/2025, 14:30:45, 40.712800, -74.006000, 10.00, -50"
      receivedData0).rssi = 0 :=
  ⟨decoded_rssi_is_sentinel.1 "12/28/2025, 14:30:45, 40.712800, -74.006000, 10.00"
      (parseReceivedPacket "12/28/2025, 14:30:45, 40.712800, -74.006000, 10.00"
        receivedData0) rfl,
   decoded_rssi_is_sentinel.1 "12/28/2025, 14:30:45, 40.712800, -74.006000, 10.00, -50"
      (parseReceivedPacket "12/28/2025, 14:30:45, 40.712800, -74.006000, 10.00, -50"
        receivedData0) rfl⟩

/-! ## C1: unparseable numeric fields -/

/-- Counterexample to C1: decoding the spec's own example
`"13/45/2025, 99:99:99, notanumber, -98.174, 10.00"` does not fail
with `InvalidNumber`: it succeeds, the unparseable latitude is
silently defaulted to 0, and the cache is updated (presence flag
set). -/
theorem invalid_number_counterexample :
    parseResult "13/45/2025, 99:99:99, notanumber, -98.174, 10.00"
      = .ok (parseReceivedPacket
          "13/45/2025, 99:99:99, notanumber, -98.174, 10.00" receivedData0) ∧
    (parseReceivedPacket "13/45/2025, 99:99:99, notanumber, -98.174, 10.00"
      receivedData0).latitude = 0 ∧
    (parseReceivedPacket "13/45/2025, 99:99:99, notanumber, -98.174, 10.00"
      receivedData0).hasReceivedData = true := by
  refine ⟨rfl, ?_, rfl⟩
  decide

/-- C1 amended: with at least 5 comma-delimited segments (at least 4
commas) decoding always succeeds — `toFloat` silently defaults an
unparseable numeric field to 0 (shown at the example field
`"notanumber"`), the error branch can only ever report
`InsufficientFields`, and the cache IS updated. -/
theorem invalid_number_amended :
    (∀ p rd, 4 ≤ p.data.count ',' →
      parseResult p = .ok (parseReceivedPacket p rd) ∧
      (parseReceivedPacket p rd).hasReceivedData = true) ∧
    (∀ p e, parseResult p = .error e → e = .insufficientFields) ∧
    toFloat "notanumber" = 0 := by
  refine ⟨?_, ?_, by decide⟩
  · intro p rd h
    have hcc : 4 ≤ (finalState p).commaCount := by
      rw [finalState_commaCount, runSplit_commaCount]
      exact h
    rw [parseResult, if_pos hcc, parseReceivedPacket, parseResult, if_pos hcc]
    exact ⟨rfl, rfl⟩
  · intro p e h
    rw [parseResult] at h
    split at h
    · cases h
    · cases h
      rfl

/-- Witness for the amended C1 at the spec's example input. -/
theorem invalid_number_amended_witness :
    parseResult "13/45/2025, 99:99:99, notanumber, -98.174, 10.00"
      = .ok (parseReceivedPacket
          "13/45/2025, 99:99:99, notanumber, -98.174, 10.00" receivedData0) ∧
    (parseReceivedPacket "13/45/2025, 99:99:99, notanumber, -98.174, 10.00"
      receivedData0).hasReceivedData = true :=
  invalid_number_amended.1 "13/45/2025, 99:99:99, notanumber, -98.174, 10.00"
    receivedData0 (by decide)

/-! ## C9: the out-of-bounds final-segment write -/

/-- C9: on the program's own six-field outbound packet text the
final-segment write fires (`commaCount >= 4` and characters remain
after the last comma) with write index `commaCount = 5`, past the end
of the five-element `parts` array; in this checked model the write is
dropped (`parts` unchanged).  In general, whenever the final write
fires, its index `commaCount` is in bounds exactly when the input has
exactly 4 commas. -/
theorem final_write_out_of_bounds :
    (4 ≤ (runSplit "12/28/2025, 14:30:45, 40.712800, -74.006000, 10.00, -50").commaCount ∧
      (runSplit "12/28/2025, 14:30:45, 40.712800, -74.006000, 10.00, -50").cur ≠ [] ∧
      5 ≤ (runSplit "12/28/2025, 14:30:45, 40.712800, -74.006000, 10.00, -50").commaCount ∧
      (finalState "12/28/2025, 14:30:45, 40.712800, -74.006000, 10.00, -50").parts
        = (runSplit "12/28/2025, 14:30:45, 40.712800, -74.006000, 10.00, -50").parts) ∧
    (∀ p, 4 ≤ (runSplit p).commaCount → (runSplit p).cur ≠ [] →
      ((runSplit p).commaCount < 5 ↔ p.data.count ',' = 4)) := by
  constructor
  · refine ⟨by decide, by decide, by decide, ?_⟩
    decide
  · intro p h4 _
    rw [runSplit_commaCount] at h4 ⊢
    omega

/-- Witness for C9's general part at the six-field packet: its write
index is not in bounds, matching its five commas. -/
theorem final_write_out_of_bounds_witness :
    ¬ (runSplit "12/28/2025, 14:30:45, 40.712800, -74.006000, 10.00, -50").commaCount < 5 := by
  intro hlt
  have h := (final_write_out_of_bounds.2
    "12/28/2025, 14:30:45, 40.712800, -74.006000, 10.00, -50"
    (by decide) (by decide)).mp hlt
  revert h
  decide

/-! ## C10: trailing comma, empty altitude field -/

/-- C10: an input with exactly 4 commas ending in its final comma
decodes successfully: `parts[4]` is left as the empty string, the
altitude parses to 0, and the cache is overwritten with the decoded
record, presence flag set. -/
theorem trailing_comma_empty_altitude (cs : List Char) (rd : ReceivedData)
    (h : (String.mk (cs ++ [','])).data.count ',' = 4) :
    getPart (finalState (String.mk (cs ++ [',']))) 4 = "" ∧
    parseResult (String.mk (cs ++ [',']))
      = .ok (parseReceivedPacket (String.mk (cs ++ [','])) rd) ∧
    (parseReceivedPacket (String.mk (cs ++ [','])) rd).altitude = 0 ∧
    (parseReceivedPacket (String.mk (cs ++ [','])) rd).hasReceivedData = true := by
  have hdata : (String.mk (cs ++ [','])).data = cs ++ [','] := rfl
  have hcur : (runSplit (String.mk (cs ++ [',']))).cur = [] := by
    rw [runSplit, hdata, List.foldl_append]
    rfl
  have hfin : finalState (String.mk (cs ++ [','])) = runSplit (String.mk (cs ++ [','])) := by
    rw [finalState, if_neg]
    intro hcon
    exact hcon.2 hcur
  have hcc : (finalState (String.mk (cs ++ [','])) ).commaCount = 4 := by
    rw [finalState_commaCount, runSplit_commaCount, hdata]
    rw [hdata] at h
    exact h
  have h4 : 4 ≤ (finalState (String.mk (cs ++ [','])) ).commaCount := by omega
  have hccle : (List.foldl splitStep initSplit (cs ++ [','])).commaCount ≤ 4 := by
    have hrs : (runSplit (String.mk (cs ++ [',']))).commaCount = 4 := by
      rw [← finalState_commaCount]
      exact hcc
    rw [runSplit, hdata] at hrs
    omega
  have hpart : getPart (finalState (String.mk (cs ++ [',']))) 4 = "" := by
    rw [getPart, hfin, runSplit, hdata,
      foldl_splitStep_parts_stable (cs ++ [',']) initSplit 4 hccle]
    rfl
  have hok : parseResult (String.mk (cs ++ [',']))
      = .ok (parseReceivedPacket (String.mk (cs ++ [','])) rd) := by
    rw [parseReceivedPacket, parseResult, if_pos h4]
  refine ⟨hpart, hok, ?_, ?_⟩
  · rw [parseReceivedPacket, parseResult, if_pos h4]
    show toFloat (getPart (finalState (String.mk (cs ++ [',']))) 4) = 0
    rw [hpart]
    rfl
  · rw [parseReceivedPacket, parseResult, if_pos h4]

/-- Witness for C10 at the concrete example. -/
theorem trailing_comma_empty_altitude_witness :
    getPart (finalState (String.mk ("12/28/2025, 14:30:45, 40.7, -74.0".data ++ [',']))) 4 = "" ∧
    (parseReceivedPacket (String.mk ("12/28/2025, 14:30:45, 40.7, -74.0".data ++ [','])) receivedData0).altitude = 0 ∧
    (parseReceivedPacket (String.mk ("12/28/2025, 14:30:45, 40.7, -74.0".data ++ [','])) receivedData0).hasReceivedData = true := by
  have h := trailing_comma_empty_altitude "12/28/2025, 14:30:45, 40.7, -74.0".data
    receivedData0 (by decide)
  exact ⟨h.1, h.2.2.1, h.2.2.2⟩

/-! ## The encoder (`formatPacket`)

`String(float, k)` prints the value with exactly `k` fractional digits,
rounding to the nearest representable decimal; over the rational model
this is rendering of `round (q * 10 ^ k)` at scale `k`. -/

/-- ASCII digit character for `n < 10`. -/
def dCh (n : Nat) : Char := Char.ofNat (48 + n)

/-- Decimal digits of a natural number, most significant first. -/
def natDigits (n : Nat) : List Char :=
  if _h : n < 10 then [dCh n]
  else natDigits (n / 10) ++ [dCh (n % 10)]
decreasing_by exact Nat.div_lt_self (by omega) (by omega)

/-- Exactly `k` decimal digits of `f % 10 ^ k`, zero padded, most
significant first. -/
def fracDigits : Nat → Nat → List Char
  | 0, _ => []
  | k + 1, f => fracDigits k (f / 10) ++ [dCh (f % 10)]

/-- Fixed-point decimal rendering of the scaled integer `m / 10 ^ n`:
optional minus sign, integer digits, point, exactly `n` fraction
digits. -/
def renderScaled (m : Int) (n : Nat) : List Char :=
  (if m < 0 then ['-'] else []) ++
    natDigits (m.natAbs / 10 ^ n) ++ '.' :: fracDigits n (m.natAbs % 10 ^ n)

/-- `String(q, n)` of the Arduino `String` constructor over the
rational model. -/
def fmtFixed (q : ℚ) (n : Nat) : String :=
  String.mk (renderScaled (round (q * 10 ^ n)) n)

/-- `struct PacketData`. -/
structure PacketData where
  timestamp : String
  latitude : ℚ
  longitude : ℚ
  altitude : ℚ
  rssi : Int

/-- `formatPacket` restricted to the five-field inbound subset (the
outbound text up to, but excluding, the trailing `", " + String(rssi)`
appended below). -/
def formatPacket5 (d : PacketData) : String :=
  d.timestamp ++ ", " ++ fmtFixed d.latitude 6 ++ ", " ++
    fmtFixed d.longitude 6 ++ ", " ++ fmtFixed d.altitude 2

/-- `formatPacket`: `MM/DD/YYYY, HH:MM:SS, lat(6dp), lon(6dp),
alt(2dp), rssi`. -/
def formatPacket (d : PacketData) : String :=
  formatPacket5 d ++ ", " ++ toString d.rssi

/-! ## Digit-level lemmas -/

theorem dCh_isDigit : ∀ k, k < 10 → (dCh k).isDigit = true := by decide

theorem digitVal_dCh : ∀ k, k < 10 → digitVal (dCh k) = k := by decide

theorem isDigit_char_ne (c : Char) (h : c.isDigit = true) :
    c ≠ '-' ∧ c ≠ '+' ∧ c ≠ ',' ∧ c ≠ '.' ∧ isWs c = false := by
  have key : ∀ x : Char, c = x → x.isDigit = false → False := by
    intro x heq hx
    rw [heq, hx] at h
    cases h
  refine ⟨fun he => key _ he (by decide), fun he => key _ he (by decide),
    fun he => key _ he (by decide), fun he => key _ he (by decide), ?_⟩
  simp only [isWs, Bool.or_eq_false_iff, decide_eq_false_iff_not]
  refine ⟨⟨⟨⟨⟨?_, ?_⟩, ?_⟩, ?_⟩, ?_⟩, ?_⟩ <;> intro he <;> exact key _ he (by decide)

theorem natDigits_ne_nil (n : Nat) : natDigits n ≠ [] := by
  rw [natDigits]
  split
  · simp
  · simp

theorem natDigits_isDigit (n : Nat) : ∀ c ∈ natDigits n, c.isDigit = true := by
  induction n using Nat.strong_induction_on with
  | _ n ih =>
    rw [natDigits]
    split
    · intro c hc
      rw [List.mem_singleton] at hc
      subst hc
      exact dCh_isDigit n (by omega)
    · intro c hc
      rcases List.mem_append.mp hc with h1 | h2
      · exact ih (n / 10) (Nat.div_lt_self (by omega) (by omega)) c h1
      · rw [List.mem_singleton] at h2
        subst h2
        exact dCh_isDigit _ (Nat.mod_lt _ (by omega))

theorem fracDigits_isDigit (k : Nat) :
    ∀ (f : Nat), ∀ c ∈ fracDigits k f, c.isDigit = true := by
  induction k with
  | zero => intro f c hc; cases hc
  | succ k ih =>
      intro f c hc
      rw [fracDigits] at hc
      rcases List.mem_append.mp hc with h1 | h2
      · exact ih (f / 10) c h1
      · rw [List.mem_singleton] at h2
        subst h2
        exact dCh_isDigit _ (Nat.mod_lt _ (by omega))

theorem fracDigits_length (k : Nat) : ∀ f : Nat, (fracDigits k f).length = k := by
  induction k with
  | zero => intro f; rfl
  | succ k ih =>
      intro f
      rw [fracDigits, List.length_append, ih]
      simp

theorem digitsVal_append_one (l : List Char) (c : Char) :
    digitsVal (l ++ [c]) = digitsVal l * 10 + digitVal c := by
  rw [digitsVal, digitsVal, List.foldl_append]
  rfl

theorem digitsVal_natDigits (n : Nat) : digitsVal (natDigits n) = n := by
  induction n using Nat.strong_induction_on with
  | _ n ih =>
    rw [natDigits]
    split
    · rename_i h
      have h1 : digitVal (dCh n) = n := digitVal_dCh n (by omega)
      simp [digitsVal, h1]
    · rename_i h
      rw [digitsVal_append_one, ih (n / 10) (Nat.div_lt_self (by omega) (by omega)),
        digitVal_dCh _ (Nat.mod_lt _ (by omega))]
      omega

theorem digitsVal_fracDigits (k : Nat) :
    ∀ f : Nat, digitsVal (fracDigits k f) = f % 10 ^ k := by
  induction k with
  | zero => intro f; simp [fracDigits, digitsVal, Nat.mod_one]
  | succ k ih =>
      intro f
      rw [fracDigits, digitsVal_append_one, ih,
        digitVal_dCh _ (Nat.mod_lt _ (by omega))]
      have hp : (10 : Nat) ^ (k + 1) = 10 * 10 ^ k := by ring
      rw [hp, Nat.mod_mul]
      omega

/-! ## takeWhile and dropWhile helpers -/

theorem takeWhile_of_all {p : Char → Bool} (l : List Char)
    (h : ∀ c ∈ l, p c = true) : l.takeWhile p = l := by
  induction l with
  | nil => rfl
  | cons a l ih =>
      rw [List.takeWhile_cons, if_pos (h a (List.mem_cons_self a l))]
      rw [ih fun c hc => h c (List.mem_cons_of_mem a hc)]

theorem dropWhile_of_none {p : Char → Bool} (l : List Char)
    (h : ∀ c ∈ l, p c = false) : l.dropWhile p = l := by
  induction l with
  | nil => rfl
  | cons a l _ =>
      rw [List.dropWhile_cons]
      rw [h a (List.mem_cons_self a l)]
      simp

theorem takeWhile_append_stop {p : Char → Bool} (l1 l2 : List Char) (d : Char)
    (h1 : ∀ c ∈ l1, p c = true) (hd : p d = false) :
    (l1 ++ d :: l2).takeWhile p = l1 ∧ (l1 ++ d :: l2).dropWhile p = d :: l2 := by
  induction l1 with
  | nil =>
      constructor
      · rw [List.nil_append, List.takeWhile_cons, if_neg (by simp [hd])]
      · rw [List.nil_append, List.dropWhile_cons, hd]
        simp
  | cons a l ih =>
      have ha : p a = true := h1 a (List.mem_cons_self a l)
      have ih2 := ih fun c hc => h1 c (List.mem_cons_of_mem a hc)
      constructor
      · rw [List.cons_append, List.takeWhile_cons, if_pos ha, ih2.1]
      · rw [List.cons_append, List.dropWhile_cons, ha]
        simpa using ih2.2

/-! ## Parsing the rendered text back -/

theorem parseUnsigned_fixed (ds fs : List Char)
    (hds : ∀ c ∈ ds, c.isDigit = true) (hfs : ∀ c ∈ fs, c.isDigit = true) :
    parseUnsigned (ds ++ '.' :: fs) =
      (digitsVal ds : ℚ) + (digitsVal fs : ℚ) / 10 ^ fs.length := by
  obtain ⟨htw, hdw⟩ := takeWhile_append_stop ds fs '.' hds (by decide)
  rw [parseUnsigned]
  rw [htw, hdw]
  rw [if_pos (show ('.' :: fs).head? = some '.' from rfl)]
  rw [List.tail_cons, takeWhile_of_all fs hfs]

theorem toFloat_renderScaled (m : Int) (n : Nat) :
    toFloat (String.mk (renderScaled m n)) = (m : ℚ) / 10 ^ n := by
  have hds : ∀ c ∈ natDigits (m.natAbs / 10 ^ n), c.isDigit = true :=
    natDigits_isDigit _
  have hfs : ∀ c ∈ fracDigits n (m.natAbs % 10 ^ n), c.isDigit = true :=
    fracDigits_isDigit n _
  have hval : (digitsVal (natDigits (m.natAbs / 10 ^ n)) : ℚ) +
      (digitsVal (fracDigits n (m.natAbs % 10 ^ n)) : ℚ) /
        10 ^ (fracDigits n (m.natAbs % 10 ^ n)).length
      = (m.natAbs : ℚ) / 10 ^ n := by
    rw [digitsVal_natDigits, digitsVal_fracDigits, fracDigits_length,
      Nat.mod_mod_of_dvd _ dvd_rfl]
    have h10 : ((10 : ℚ) ^ n) ≠ 0 := by positivity
    rw [eq_div_iff h10, add_mul, div_mul_cancel₀ _ h10]
    have hsplit : m.natAbs / 10 ^ n * 10 ^ n + m.natAbs % 10 ^ n = m.natAbs := by
      rw [Nat.mul_comm]
      exact Nat.div_add_mod m.natAbs (10 ^ n)
    exact_mod_cast hsplit
  by_cases hm : m < 0
  · have hr : renderScaled m n =
        '-' :: (natDigits (m.natAbs / 10 ^ n) ++
          '.' :: fracDigits n (m.natAbs % 10 ^ n)) := by
      rw [renderScaled, if_pos hm]
      rfl
    rw [hr, toFloat_mk_cons, if_pos rfl, parseUnsigned_fixed _ _ hds hfs, hval]
    have habs : ((m.natAbs : ℚ)) = -(m : ℚ) := by
      rw [Int.cast_natAbs, Int.cast_abs]
      exact abs_of_neg (by exact_mod_cast hm)
    rw [habs]
    ring
  · have hr : renderScaled m n =
        natDigits (m.natAbs / 10 ^ n) ++
          '.' :: fracDigits n (m.natAbs % 10 ^ n) := by
      rw [renderScaled, if_neg hm]
      rfl
    obtain ⟨c, cs', hnd⟩ :=
      List.exists_cons_of_ne_nil (natDigits_ne_nil (m.natAbs / 10 ^ n))
    have hcd : c.isDigit = true := hds c (by rw [hnd]; exact List.mem_cons_self c cs')
    obtain ⟨hne1, hne2, -, -, -⟩ := isDigit_char_ne c hcd
    rw [hr, hnd, List.cons_append, toFloat_mk_cons, if_neg hne1, if_neg hne2,
      ← List.cons_append, ← hnd, parseUnsigned_fixed _ _ hds hfs, hval]
    have habs : ((m.natAbs : ℚ)) = (m : ℚ) := by
      rw [Int.cast_natAbs, Int.cast_abs]
      exact abs_of_nonneg (by exact_mod_cast not_lt.mp hm)
    rw [habs]

/-! ## Running the splitter over an encoded packet -/

theorem splitStep_comma (st : SplitState) (h : st.commaCount < 5) :
    splitStep st ',' =
      ⟨st.commaCount + 1, [],
        st.parts.set st.commaCount (String.mk (trimChars st.cur))⟩ := by
  simp [splitStep, h]

theorem splitStep_other (st : SplitState) (c : Char) (h : c ≠ ',') :
    splitStep st c = { st with cur := st.cur ++ [c] } := by
  simp [splitStep, h]

theorem foldl_splitStep_nocomma (cs : List Char) (h : ∀ c ∈ cs, c ≠ ',') :
    ∀ st : SplitState,
      List.foldl splitStep st cs = { st with cur := st.cur ++ cs } := by
  induction cs with
  | nil => intro st; simp
  | cons c cs ih =>
      intro st
      rw [List.foldl_cons, splitStep_other st c (h c (List.mem_cons_self c cs)),
        ih fun x hx => h x (List.mem_cons_of_mem c hx)]
      simp

theorem foldl_splitStep_segment (st : SplitState) (seg rest : List Char)
    (hseg : ∀ c ∈ seg, c ≠ ',') (h5 : st.commaCount < 5) :
    List.foldl splitStep st (seg ++ ',' :: rest) =
      List.foldl splitStep
        ⟨st.commaCount + 1, [],
          st.parts.set st.commaCount (String.mk (trimChars (st.cur ++ seg)))⟩
        rest := by
  rw [List.foldl_append, foldl_splitStep_nocomma seg hseg, List.foldl_cons,
    splitStep_comma]
  exact h5

theorem trimChars_space_cons (cs : List Char) (h : ∀ c ∈ cs, isWs c = false) :
    trimChars (' ' :: cs) = cs := by
  have h1 : List.dropWhile isWs (' ' :: cs) = cs := by
    rw [List.dropWhile_cons, if_pos (by decide), dropWhile_of_none cs h]
  rw [trimChars, h1,
    dropWhile_of_none _ (fun c hc => h c (List.mem_reverse.mp hc)),
    List.reverse_reverse]

theorem renderScaled_benign (m : Int) (n : Nat) :
    ∀ c ∈ renderScaled m n, c ≠ ',' ∧ isWs c = false := by
  intro c hc
  rw [renderScaled] at hc
  rcases List.mem_append.mp hc with h1 | h2
  · rcases List.mem_append.mp h1 with hs | hd
    · have : c = '-' := by
        revert hs
        split
        · intro hs
          exact List.mem_singleton.mp hs
        · intro hs
          cases hs
      subst this
      exact ⟨by decide, by decide⟩
    · have := natDigits_isDigit _ c hd
      obtain ⟨-, -, h3, -, h5⟩ := isDigit_char_ne c this
      exact ⟨h3, h5⟩
  · rcases List.mem_cons.mp h2 with hp | hf
    · subst hp
      exact ⟨by decide, by decide⟩
    · have := fracDigits_isDigit n _ c hf
      obtain ⟨-, -, h3, -, h5⟩ := isDigit_char_ne c this
      exact ⟨h3, h5⟩

theorem splitFive (a b r1 r2 r3 : List Char)
    (ha : ∀ c ∈ a, c ≠ ',') (hb : ∀ c ∈ b, c ≠ ',')
    (h1c : ∀ c ∈ r1, c ≠ ',') (h1w : ∀ c ∈ r1, isWs c = false)
    (h2c : ∀ c ∈ r2, c ≠ ',') (h2w : ∀ c ∈ r2, isWs c = false)
    (h3c : ∀ c ∈ r3, c ≠ ',') :
    List.foldl splitStep initSplit
      (a ++ ',' :: (b ++ ',' :: ' ' :: (r1 ++ ',' :: ' ' :: (r2 ++ ',' :: ' ' :: r3))))
      = ⟨4, ' ' :: r3,
          [String.mk (trimChars a), String.mk (trimChars b),
           String.mk r1, String.mk r2, ""]⟩ := by
  rw [foldl_splitStep_segment initSplit a _ ha (by decide)]
  show List.foldl splitStep
      ⟨1, [], [String.mk (trimChars a), "", "", "", ""]⟩
      (b ++ ',' :: ' ' :: (r1 ++ ',' :: ' ' :: (r2 ++ ',' :: ' ' :: r3))) = _
  rw [foldl_splitStep_segment ⟨1, [], [String.mk (trimChars a), "", "", "", ""]⟩
      b _ hb (by norm_num)]
  show List.foldl splitStep
      ⟨2, [], [String.mk (trimChars a), String.mk (trimChars b), "", "", ""]⟩
      (' ' :: (r1 ++ ',' :: ' ' :: (r2 ++ ',' :: ' ' :: r3))) = _
  rw [List.foldl_cons, splitStep_other _ ' ' (by decide)]
  show List.foldl splitStep
      ⟨2, [' '], [String.mk (trimChars a), String.mk (trimChars b), "", "", ""]⟩
      (r1 ++ ',' :: ' ' :: (r2 ++ ',' :: ' ' :: r3)) = _
  rw [foldl_splitStep_segment
      ⟨2, [' '], [String.mk (trimChars a), String.mk (trimChars b), "", "", ""]⟩
      r1 _ h1c (by norm_num)]
  show List.foldl splitStep
      ⟨3, [], [String.mk (trimChars a), String.mk (trimChars b),
        String.mk (trimChars (' ' :: r1)), "", ""]⟩
      (' ' :: (r2 ++ ',' :: ' ' :: r3)) = _
  rw [trimChars_space_cons r1 h1w]
  rw [List.foldl_cons, splitStep_other _ ' ' (by decide)]
  show List.foldl splitStep
      ⟨3, [' '], [String.mk (trimChars a), String.mk (trimChars b),
        String.mk r1, "", ""]⟩
      (r2 ++ ',' :: ' ' :: r3) = _
  rw [foldl_splitStep_segment
      ⟨3, [' '], [String.mk (trimChars a), String.mk (trimChars b),
        String.mk r1, "", ""]⟩
      r2 _ h2c (by norm_num)]
  show List.foldl splitStep
      ⟨4, [], [String.mk (trimChars a), String.mk (trimChars b),
        String.mk r1, String.mk (trimChars (' ' :: r2)), ""]⟩
      (' ' :: r3) = _
  rw [trimChars_space_cons r2 h2w]
  rw [List.foldl_cons, splitStep_other _ ' ' (by decide)]
  show List.foldl splitStep
      ⟨4, [' '], [String.mk (trimChars a), String.mk (trimChars b),
        String.mk r1, String.mk r2, ""]⟩
      r3 = _
  rw [foldl_splitStep_nocomma r3 h3c]
  rfl

/-! ## C8: the encode–decode round trip -/

theorem round_div_abs_le (q : ℚ) (n : Nat) :
    |(round (q * 10 ^ n) : ℚ) / 10 ^ n - q| ≤ 1 / (2 * 10 ^ n) := by
  have hpos : (0 : ℚ) < 10 ^ n := by positivity
  have h1 : (round (q * 10 ^ n) : ℚ) / 10 ^ n - q
      = ((round (q * 10 ^ n) : ℚ) - q * 10 ^ n) / 10 ^ n := by
    field_simp
    ring
  rw [h1, abs_div, abs_of_pos hpos, div_le_iff₀ hpos]
  have h2 : 1 / (2 * 10 ^ n) * 10 ^ n = (1 : ℚ) / 2 := by
    field_simp
    ring
  rw [h2, abs_sub_comm]
  exact abs_sub_round (q * 10 ^ n)

theorem finalState_formatPacket5 (d : PacketData) (a b : List Char)
    (hts : d.timestamp = String.mk (a ++ ',' :: b))
    (ha : ∀ c ∈ a, c ≠ ',') (hb : ∀ c ∈ b, c ≠ ',') :
    finalState (formatPacket5 d)
      = ⟨4, ' ' :: renderScaled (round (d.altitude * 10 ^ 2)) 2,
          [String.mk (trimChars a), String.mk (trimChars b),
           String.mk (renderScaled (round (d.latitude * 10 ^ 6)) 6),
           String.mk (renderScaled (round (d.longitude * 10 ^ 6)) 6),
           String.mk (renderScaled (round (d.altitude * 10 ^ 2)) 2)]⟩ := by
  have hdata : (formatPacket5 d).data
      = a ++ ',' :: (b ++ ',' :: ' ' ::
          (renderScaled (round (d.latitude * 10 ^ 6)) 6 ++ ',' :: ' ' ::
            (renderScaled (round (d.longitude * 10 ^ 6)) 6 ++ ',' :: ' ' ::
              renderScaled (round (d.altitude * 10 ^ 2)) 2))) := by
    simp [formatPacket5, fmtFixed, hts]
  have h1 := renderScaled_benign (round (d.latitude * 10 ^ 6)) 6
  have h2 := renderScaled_benign (round (d.longitude * 10 ^ 6)) 6
  have h3 := renderScaled_benign (round (d.altitude * 10 ^ 2)) 2
  have hrun : runSplit (formatPacket5 d)
      = ⟨4, ' ' :: renderScaled (round (d.altitude * 10 ^ 2)) 2,
          [String.mk (trimChars a), String.mk (trimChars b),
           String.mk (renderScaled (round (d.latitude * 10 ^ 6)) 6),
           String.mk (renderScaled (round (d.longitude * 10 ^ 6)) 6), ""]⟩ := by
    rw [runSplit, hdata]
    exact splitFive a b _ _ _ ha hb
      (fun c hc => (h1 c hc).1) (fun c hc => (h1 c hc).2)
      (fun c hc => (h2 c hc).1) (fun c hc => (h2 c hc).2)
      (fun c hc => (h3 c hc).1)
  rw [finalState, hrun, if_pos (by constructor <;> simp)]
  simp [trimChars_space_cons _ fun c hc => (h3 c hc).2]

/-- C8: decoding the encoded text restricted to the five-field inbound
subset recovers latitude and longitude to 6 fractional digits and
altitude to 2 fractional digits: the decoded values are exactly the
encoder's rounded decimals, hence within half an ulp of the original
(1/(2·10⁶) for latitude/longitude, 1/(2·10²) for altitude).  The
timestamp is assumed to contain exactly one comma (the `MM/DD/YYYY,
HH:MM:SS` date–time separator), as the wire format prescribes. -/
theorem encode_decode_roundtrip (d : PacketData) (a b : List Char)
    (hts : d.timestamp = String.mk (a ++ ',' :: b))
    (ha : ∀ c ∈ a, c ≠ ',') (hb : ∀ c ∈ b, c ≠ ',') :
    ∃ r, parseResult (formatPacket5 d) = .ok r ∧
      r.latitude = (round (d.latitude * 10 ^ 6) : ℚ) / 10 ^ 6 ∧
      r.longitude = (round (d.longitude * 10 ^ 6) : ℚ) / 10 ^ 6 ∧
      r.altitude = (round (d.altitude * 10 ^ 2) : ℚ) / 10 ^ 2 ∧
      |r.latitude - d.latitude| ≤ 1 / (2 * 10 ^ 6) ∧
      |r.longitude - d.longitude| ≤ 1 / (2 * 10 ^ 6) ∧
      |r.altitude - d.altitude| ≤ 1 / (2 * 10 ^ 2) := by
  have hfin := finalState_formatPacket5 d a b hts ha hb
  have h4 : 4 ≤ (finalState (formatPacket5 d)).commaCount := by
    rw [hfin]
  refine ⟨_, by rw [parseResult, if_pos h4], ?_, ?_, ?_, ?_, ?_, ?_⟩
  · show toFloat (getPart (finalState (formatPacket5 d)) 2) = _
    rw [hfin]
    show toFloat (String.mk (renderScaled (round (d.latitude * 10 ^ 6)) 6)) = _
    rw [toFloat_renderScaled]
  · show toFloat (getPart (finalState (formatPacket5 d)) 3) = _
    rw [hfin]
    show toFloat (String.mk (renderScaled (round (d.longitude * 10 ^ 6)) 6)) = _
    rw [toFloat_renderScaled]
  · show toFloat (getPart (finalState (formatPacket5 d)) 4) = _
    rw [hfin]
    show toFloat (String.mk (renderScaled (round (d.altitude * 10 ^ 2)) 2)) = _
    rw [toFloat_renderScaled]
  · show |toFloat (getPart (finalState (formatPacket5 d)) 2) - d.latitude| ≤ _
    rw [hfin]
    show |toFloat (String.mk (renderScaled (round (d.latitude * 10 ^ 6)) 6)) - d.latitude| ≤ _
    rw [toFloat_renderScaled]
    exact round_div_abs_le d.latitude 6
  · show |toFloat (getPart (finalState (formatPacket5 d)) 3) - d.longitude| ≤ _
    rw [hfin]
    show |toFloat (String.mk (renderScaled (round (d.longitude * 10 ^ 6)) 6)) - d.longitude| ≤ _
    rw [toFloat_renderScaled]
    exact round_div_abs_le d.longitude 6
  · show |toFloat (getPart (finalState (formatPacket5 d)) 4) - d.altitude| ≤ _
    rw [hfin]
    show |toFloat (String.mk (renderScaled (round (d.altitude * 10 ^ 2)) 2)) - d.altitude| ≤ _
    rw [toFloat_renderScaled]
    exact round_div_abs_le d.altitude 2

/-- A concrete record for the C8 witness. -/
def packetExample : PacketData :=
  { timestamp := "12/28/2025, 14:30:45", latitude := 40.7128,
    longitude := -74.006, altitude := 10, rssi := -50 }

/-- Witness for C8 at the concrete record `packetExample`. -/
theorem encode_decode_roundtrip_witness :
    ∃ r, parseResult (formatPacket5 packetExample) = .ok r ∧
      r.latitude = (round (packetExample.latitude * 10 ^ 6) : ℚ) / 10 ^ 6 ∧
      r.longitude = (round (packetExample.longitude * 10 ^ 6) : ℚ) / 10 ^ 6 ∧
      r.altitude = (round (packetExample.altitude * 10 ^ 2) : ℚ) / 10 ^ 2 ∧
      |r.latitude - packetExample.latitude| ≤ 1 / (2 * 10 ^ 6) ∧
      |r.longitude - packetExample.longitude| ≤ 1 / (2 * 10 ^ 6) ∧
      |r.altitude - packetExample.altitude| ≤ 1 / (2 * 10 ^ 2) :=
  encode_decode_roundtrip packetExample
    "12/28/2025".data " 14:30:45".data rfl (by decide) (by decide)

end IAMTag
